import Mathlib

/-!
# vector_addition.c : SIMD addition of two arrays of Vector3

A shallow embedding of `src/c/vector_addition.c`.

* A `Vector3` array is a flat sequence of floats: `a[i].x` sits at float
  position `3*i`, `a[i].y` at `3*i+1`, `a[i].z` at `3*i+2`.
* The float type is a parameter `α`; the program's float addition is the
  parameter `add` (and `FloatOps` bundles what `main` needs on top of it).
  Concrete evaluations use `Int`, standing for floats with small integer
  values, on which float addition is exact.
* A pointer is a buffer name together with a float position.  Every access is
  bounds checked: an access outside its buffer makes the run fail (`none`).
* The memory carries a trace of the scalar slots read and written, in
  program order.
-/

namespace VectorAddition

/-- The three buffers of the program; a pointer points into one of them. -/
inductive Buf where
  | a
  | b
  | result
  deriving DecidableEq, Repr

/-- One access to one float slot of a buffer. -/
inductive Access where
  | load (buf : Buf) (pos : Nat)
  | store (buf : Buf) (pos : Nat)
  deriving DecidableEq, Repr

/-- The float position an access touches. -/
def Access.pos : Access → Nat
  | .load _ p => p
  | .store _ p => p

/-- The buffer an access touches. -/
def Access.buf : Access → Buf
  | .load bf _ => bf
  | .store bf _ => bf

/-- Whether the access is a write. -/
def Access.isStore : Access → Bool
  | .load _ _ => false
  | .store _ _ => true

/-- The struct of lines 26-29: three floats. -/
structure Vector3 (α : Type) where
  x : α
  y : α
  z : α
  deriving DecidableEq, Repr

/-- A NEON register of four float lanes. -/
structure float32x4_t (α : Type) where
  l0 : α
  l1 : α
  l2 : α
  l3 : α
  deriving DecidableEq, Repr

/-- The explicit state: the contents of the three buffers (flat floats) and
the trace of accesses made so far. -/
structure Mem (α : Type) where
  a : List α
  b : List α
  result : List α
  trace : List Access
  deriving DecidableEq, Repr

variable {α : Type}

/-- Contents of the buffer a pointer points into. -/
def Mem.buf (m : Mem α) : Buf → List α
  | .a => m.a
  | .b => m.b
  | .result => m.result

/-- Replace the contents of one buffer. -/
def Mem.setBuf (m : Mem α) (buf : Buf) (l : List α) : Mem α :=
  match buf with
  | .a => { m with a := l }
  | .b => { m with b := l }
  | .result => { m with result := l }

/-- Append events to the trace. -/
def Mem.log (m : Mem α) (es : List Access) : Mem α :=
  { m with trace := m.trace ++ es }

/-- Element `i` of a Vector3 array stored as flat floats. -/
def vec3At (l : List α) (i : Nat) : Option (Vector3 α) :=
  match l[3 * i]?, l[3 * i + 1]?, l[3 * i + 2]? with
  | some x, some y, some z => some ⟨x, y, z⟩
  | _, _, _ => none

/-- Component-wise sum of two Vector3. -/
def Vector3.add (add : α → α → α) (u v : Vector3 α) : Vector3 α :=
  ⟨add u.x v.x, add u.y v.y, add u.z v.z⟩

/-- A scalar float read `buf[p]`. -/
def loadFloat (m : Mem α) (buf : Buf) (p : Nat) : Option (α × Mem α) :=
  match (m.buf buf)[p]? with
  | some v => some (v, m.log [.load buf p])
  | none => none

/-- A scalar float write `buf[p] = v`. -/
def storeFloat (m : Mem α) (buf : Buf) (p : Nat) (v : α) : Option (Mem α) :=
  if p < (m.buf buf).length then
    some ((m.setBuf buf ((m.buf buf).set p v)).log [.store buf p])
  else none

/-- The intrinsic `vld1q_f32(ptr)`: reads the 4 consecutive floats at `ptr`. -/
def vld1q_f32 (m : Mem α) (buf : Buf) (p : Nat) : Option (float32x4_t α × Mem α) :=
  match (m.buf buf)[p]?, (m.buf buf)[p + 1]?, (m.buf buf)[p + 2]?, (m.buf buf)[p + 3]? with
  | some v0, some v1, some v2, some v3 =>
      some (⟨v0, v1, v2, v3⟩,
        m.log [.load buf p, .load buf (p + 1), .load buf (p + 2), .load buf (p + 3)])
  | _, _, _, _ => none

/-- The intrinsic `vaddq_f32(v, w)`: lane-wise float addition. -/
def vaddq_f32 (add : α → α → α) (v w : float32x4_t α) : float32x4_t α :=
  ⟨add v.l0 w.l0, add v.l1 w.l1, add v.l2 w.l2, add v.l3 w.l3⟩

/-- The intrinsic `vst1q_f32(ptr, v)`: writes the 4 lanes of `v` to the 4
consecutive floats at `ptr`. -/
def vst1q_f32 (m : Mem α) (buf : Buf) (p : Nat) (v : float32x4_t α) : Option (Mem α) :=
  if p + 3 < (m.buf buf).length then
    some ((m.setBuf buf
        (((((m.buf buf).set p v.l0).set (p + 1) v.l1).set (p + 2) v.l2).set (p + 3) v.l3)).log
      [.store buf p, .store buf (p + 1), .store buf (p + 2), .store buf (p + 3)])
  else none

/-- The six input registers of one iteration. -/
structure InRegs (α : Type) where
  ax : float32x4_t α
  ay : float32x4_t α
  az : float32x4_t α
  bx : float32x4_t α
  by_ : float32x4_t α
  bz : float32x4_t α
  deriving DecidableEq, Repr

/-- The three output registers of one iteration. -/
structure OutRegs (α : Type) where
  rx : float32x4_t α
  ry : float32x4_t α
  rz : float32x4_t α
  deriving DecidableEq, Repr

/-- Lines 50-56: the six loads of the iteration with group base index `i`.
`&a[i].x`, `&a[i].y`, `&a[i].z` are the float positions `3*i`, `3*i+1`,
`3*i+2` of `a`. -/
def add_vectors_loads (m : Mem α) (i : Nat) : Option (InRegs α × Mem α) :=
  (vld1q_f32 m .a (3 * i)).bind fun (ax, m) =>
  (vld1q_f32 m .a (3 * i + 1)).bind fun (ay, m) =>
  (vld1q_f32 m .a (3 * i + 2)).bind fun (az, m) =>
  (vld1q_f32 m .b (3 * i)).bind fun (bx, m) =>
  (vld1q_f32 m .b (3 * i + 1)).bind fun (by_, m) =>
  (vld1q_f32 m .b (3 * i + 2)).bind fun (bz, m) =>
  some (⟨ax, ay, az, bx, by_, bz⟩, m)

/-- Lines 59-61: the three lane-wise additions. -/
def add_vectors_adds (add : α → α → α) (r : InRegs α) : OutRegs α :=
  ⟨vaddq_f32 add r.ax r.bx, vaddq_f32 add r.ay r.by_, vaddq_f32 add r.az r.bz⟩

/-- Lines 64-66: the three stores of the iteration with group base index `i`. -/
def add_vectors_stores (m : Mem α) (i : Nat) (o : OutRegs α) : Option (Mem α) :=
  (vst1q_f32 m .result (3 * i) o.rx).bind fun m =>
  (vst1q_f32 m .result (3 * i + 1) o.ry).bind fun m =>
  vst1q_f32 m .result (3 * i + 2) o.rz

/-- Lines 49-66: the body of the loop of `add_vectors`. -/
def add_vectors_body (add : α → α → α) (m : Mem α) (i : Nat) : Option (Mem α) :=
  (add_vectors_loads m i).bind fun (r, m) =>
  add_vectors_stores m i (add_vectors_adds add r)

/-- Line 47: `for (int i = ...; i < size; i += 4)`, entered with the current
value of `i`. -/
def add_vectors_loop (add : α → α → α) (size : Int) (i : Nat) (m : Mem α) : Option (Mem α) :=
  if (i : Int) < size then
    (add_vectors_body add m i).bind (add_vectors_loop add size (i + 4))
  else some m
termination_by (size - (i : Int)).toNat
decreasing_by omega

/-- Lines 45-68: `add_vectors(a, b, result, size)` on the buffers of `m`. -/
def add_vectors (add : α → α → α) (m : Mem α) (size : Int) : Option (Mem α) :=
  add_vectors_loop add size 0 m

/-- The result buffer left by `add_vectors(a, b, result, size)` when the three
buffers initially hold `a`, `b` and `r`. -/
def kernel (add : α → α → α) (a b r : List α) (size : Int) : Option (List α) :=
  (add_vectors add ⟨a, b, r, []⟩ size).map fun m => m.result

/-- Line 31. -/
def ARRAY_SIZE : Nat := 250000

/-- Line 32. -/
def NUM_RUNS : Nat := 10

/-- The float operations `main` uses: addition, multiplication, the conversion
of an `int` to float, and the float literal `k/10` (`tenths 1` is `0.1f`,
`tenths 0` is `0.0f`). -/
structure FloatOps (α : Type) where
  add : α → α → α
  mul : α → α → α
  ofInt : Int → α
  tenths : Nat → α

/-- Lines 80-85: the body of the fill loop of `main`. -/
def fill_body (ops : FloatOps α) (m : Mem α) (i : Nat) : Option (Mem α) :=
  (storeFloat m .a (3 * i) (ops.mul (ops.ofInt i) (ops.tenths 1))).bind fun m =>
  (storeFloat m .a (3 * i + 1) (ops.mul (ops.ofInt i) (ops.tenths 2))).bind fun m =>
  (storeFloat m .a (3 * i + 2) (ops.mul (ops.ofInt i) (ops.tenths 3))).bind fun m =>
  (storeFloat m .b (3 * i) (ops.mul (ops.ofInt i) (ops.tenths 4))).bind fun m =>
  (storeFloat m .b (3 * i + 1) (ops.mul (ops.ofInt i) (ops.tenths 5))).bind fun m =>
  storeFloat m .b (3 * i + 2) (ops.mul (ops.ofInt i) (ops.tenths 6))

/-- Line 78: `for (int i = ...; i < ARRAY_SIZE; i++)`, entered with the current
value of `i`. -/
def fill_loop (ops : FloatOps α) (i : Nat) (m : Mem α) : Option (Mem α) :=
  if i < ARRAY_SIZE then
    (fill_body ops m i).bind (fill_loop ops (i + 1))
  else some m
termination_by ARRAY_SIZE - i

/-- Lines 96-99: the body of the timed loop of `main`: one call of the kernel,
then `sink += result[0].x + result[0].y + result[0].z`. -/
def run_body (ops : FloatOps α) (m : Mem α) (sink : α) : Option (Mem α × α) :=
  (add_vectors ops.add m ARRAY_SIZE).bind fun m =>
  (loadFloat m .result 0).bind fun (x, m) =>
  (loadFloat m .result 1).bind fun (y, m) =>
  (loadFloat m .result 2).bind fun (z, m) =>
  some (m, ops.add sink (ops.add (ops.add x y) z))

/-- Line 94: `for (int run = ...; run < NUM_RUNS; run++)`, entered with the
current value of `run`. -/
def run_loop (ops : FloatOps α) (run : Nat) (st : Mem α × α) : Option (Mem α × α) :=
  if run < NUM_RUNS then
    (run_body ops st.1 st.2).bind (run_loop ops (run + 1))
  else some st
termination_by NUM_RUNS - run

/-- Lines 73-100 of `main`: `m0` holds the three freshly allocated buffers
(arbitrary contents); they are filled, `sink` starts at `0.0f`, and the kernel
is run `NUM_RUNS` times.  The value is the final memory and the final sink. -/
def main (ops : FloatOps α) (m0 : Mem α) : Option (Mem α × α) :=
  (fill_loop ops 0 m0).bind fun m => run_loop ops 0 (m, ops.tenths 0)

/-- Size in bytes of a `float` (the 32-bit float of the NEON `f32` intrinsics). -/
def sizeof_float : Nat := 4

/-- The value of `sizeof(Vector3)`: three `float` members, no padding. -/
def sizeof_Vector3 : Nat := 3 * sizeof_float

/-- Arithmetic of type `size_t` (64 bits wide). -/
def size_t_wrap (n : Nat) : Nat := n % 2 ^ 64

/-- Line 109: `sizeof(Vector3) * ARRAY_SIZE * NUM_RUNS`, evaluated in `size_t`
from left to right (before its conversion to `double`). -/
def total_flops : Nat :=
  size_t_wrap (size_t_wrap (sizeof_Vector3 * ARRAY_SIZE) * NUM_RUNS)

/-- Division of two `double`s, taken as exact rationals, with the division by
zero made explicit: `none` stands for a quotient that is not a finite number. -/
def guarded_div (x y : ℚ) : Option ℚ :=
  if y = 0 then none else some (x / y)

/-- Lines 105-110: `mflops_per_second` from the two timer readings. -/
def mflops_per_second (start_time end_time : ℚ) : Option ℚ :=
  let total_time := end_time - start_time
  (guarded_div (total_flops : ℚ) total_time).bind fun q => guarded_div q 1000000

/-- The sum `a[p] + b[p]` of the floats at position `p`, when both exist. -/
def sumAt (add : α → α → α) (a b : List α) (p : Nat) : Option α :=
  match a[p]?, b[p]? with
  | some x, some y => some (add x y)
  | _, _ => none

/-- The four floats at positions `p .. p+3`, when they all exist. -/
def window4 (l : List α) (p : Nat) : Option (float32x4_t α) :=
  match l[p]?, l[p + 1]?, l[p + 2]?, l[p + 3]? with
  | some v0, some v1, some v2, some v3 => some ⟨v0, v1, v2, v3⟩
  | _, _, _, _ => none

/-- The list after a 4-float store at `p`. -/
def write4 (l : List α) (p : Nat) (v : float32x4_t α) : List α :=
  (((l.set p v.l0).set (p + 1) v.l1).set (p + 2) v.l2).set (p + 3) v.l3

/-- The accesses of the six loads of the iteration with base index `i`. -/
def loads_trace (i : Nat) : List Access :=
  [.load .a (3*i), .load .a (3*i+1), .load .a (3*i+2), .load .a (3*i+3),
   .load .a (3*i+1), .load .a (3*i+1+1), .load .a (3*i+1+2), .load .a (3*i+1+3),
   .load .a (3*i+2), .load .a (3*i+2+1), .load .a (3*i+2+2), .load .a (3*i+2+3),
   .load .b (3*i), .load .b (3*i+1), .load .b (3*i+2), .load .b (3*i+3),
   .load .b (3*i+1), .load .b (3*i+1+1), .load .b (3*i+1+2), .load .b (3*i+1+3),
   .load .b (3*i+2), .load .b (3*i+2+1), .load .b (3*i+2+2), .load .b (3*i+2+3)]

/-- The accesses of the three stores of the iteration with base index `i`. -/
def stores_trace (i : Nat) : List Access :=
  [.store .result (3*i), .store .result (3*i+1), .store .result (3*i+2), .store .result (3*i+3),
   .store .result (3*i+1), .store .result (3*i+1+1), .store .result (3*i+1+2),
   .store .result (3*i+1+3),
   .store .result (3*i+2), .store .result (3*i+2+1), .store .result (3*i+2+2),
   .store .result (3*i+2+3)]

/-- The accesses of `k` consecutive iterations starting at base index `i`. -/
def iterations_trace (i : Nat) : Nat → List Access
  | 0 => []
  | k + 1 => (loads_trace i ++ stores_trace i) ++ iterations_trace (i + 4) k

/-- How many stores of a trace target float slot `p` of `result`. -/
def storeCount (t : List Access) (p : Nat) : Nat :=
  t.count (.store .result p)

/-- The register the specification describes: component `c` (0 for x, 1 for y,
2 for z) of the four elements `i .. i+3`, gathered across the group. -/
def gather_spec (l : List α) (i c : Nat) : Option (float32x4_t α) :=
  match l[3 * i + c]?, l[3 * (i + 1) + c]?, l[3 * (i + 2) + c]?, l[3 * (i + 3) + c]? with
  | some v0, some v1, some v2, some v3 => some ⟨v0, v1, v2, v3⟩
  | _, _, _, _ => none

/-- The value the fill loop gives to float `p` of `a` (with `k0 = 1`) and of
`b` (with `k0 = 4`): element `p / 3`, component `p % 3`. -/
def fill_value (ops : FloatOps α) (k0 p : Nat) : α :=
  ops.mul (ops.ofInt ((p / 3 : Nat) : Int)) (ops.tenths (p % 3 + k0))

/-- The accesses of the iteration with index `i` of the fill loop. -/
def fill_trace_at (i : Nat) : List Access :=
  [.store .a (3 * i), .store .a (3 * i + 1), .store .a (3 * i + 2),
   .store .b (3 * i), .store .b (3 * i + 1), .store .b (3 * i + 2)]

/-- The accesses of `n` consecutive iterations of the fill loop from index `i`. -/
def fill_trace (i : Nat) : Nat → List Access
  | 0 => []
  | n + 1 => fill_trace_at i ++ fill_trace (i + 1) n

/-- The accesses of one run of the timed loop: a call of the kernel on the
whole arrays, then the three reads of `result[0]`. -/
def run_trace : List Access :=
  iterations_trace 0 (ARRAY_SIZE / 4) ++ [.load .result 0, .load .result 1, .load .result 2]

/-- Whether an access is fine after the accesses `seen`: a read of a slot of
`result` needs an earlier write of that slot. -/
def readOk (seen : List Access) : Access → Bool
  | .load .result p => decide (Access.store .result p ∈ seen)
  | _ => true

/-- Whether every read of `result` in a trace comes after a write of the same
slot, `seen` being the accesses made before the trace. -/
def initializedReads (seen : List Access) : List Access → Bool
  | [] => true
  | e :: t => readOk seen e && initializedReads (e :: seen) t

/-- One more run of the timed loop (its body, lines 96-99) on the outcome of
the runs before it; a failed outcome stays failed. -/
def run_step (ops : FloatOps α) (o : Option (Mem α × α)) : Option (Mem α × α) :=
  o.bind fun st => run_body ops st.1 st.2

/-- The `sink` after `n` runs that each add `v` to it. -/
def sink_after (ops : FloatOps α) (v : α) (n : Nat) (sink : α) : α :=
  Nat.iterate (fun s => ops.add s v) n sink

/-! ## Concrete inputs

Floats with small integer values, written as integers. -/

/-- Eight elements `a[i] = (i, i, i)`. -/
def scenA8 : List Int :=
  [0, 0, 0, 1, 1, 1, 2, 2, 2, 3, 3, 3, 4, 4, 4, 5, 5, 5, 6, 6, 6, 7, 7, 7]

/-- Eight elements `b[i] = (1, 1, 1)`. -/
def scenB8 : List Int :=
  [1, 1, 1, 1, 1, 1, 1, 1, 1, 1, 1, 1, 1, 1, 1, 1, 1, 1, 1, 1, 1, 1, 1, 1]

/-- A result buffer of eight elements, all zero. -/
def zeros24 : List Int :=
  [0, 0, 0, 0, 0, 0, 0, 0, 0, 0, 0, 0, 0, 0, 0, 0, 0, 0, 0, 0, 0, 0, 0, 0]

/-- Four elements `a[i] = (3i, 3i+1, 3i+2)`: every float differs. -/
def exA4 : List Int := [0, 1, 2, 3, 4, 5, 6, 7, 8, 9, 10, 11]

/-- Four elements `b[i] = (100, 100, 100)`. -/
def exB4 : List Int := [100, 100, 100, 100, 100, 100, 100, 100, 100, 100, 100, 100]

/-- A result buffer of four elements, all zero. -/
def zeros12 : List Int := [0, 0, 0, 0, 0, 0, 0, 0, 0, 0, 0, 0]

/-- A result buffer of four elements, all one. -/
def ones12 : List Int := [1, 1, 1, 1, 1, 1, 1, 1, 1, 1, 1, 1]

/-- Four elements with `a[0] = (0, 0, 0)`. -/
def oneGroupA : List Int := [0, 0, 0, 4, 5, 6, 7, 8, 9, 10, 11, 12]

/-- Four elements with `b[0] = (1, 2, 3)`. -/
def oneGroupB : List Int := [1, 2, 3, 1, 2, 3, 1, 2, 3, 1, 2, 3]

/-- Three output registers with all lanes of `rx` equal to 1, of `ry` to 2 and
of `rz` to 3. -/
def exRegs : OutRegs Int := ⟨⟨1, 1, 1, 1⟩, ⟨2, 2, 2, 2⟩, ⟨3, 3, 3, 3⟩⟩

/-- Exact rational arithmetic as an instance of the float operations. -/
def ratOps : FloatOps ℚ :=
  ⟨fun x y => x + y, fun x y => x * y, fun i => (i : ℚ), fun k => (k : ℚ) / 10⟩

/-- Three freshly allocated buffers of `ARRAY_SIZE` elements each (here all
zero) and an empty trace. -/
def freshMem : Mem ℚ :=
  ⟨List.replicate (3 * ARRAY_SIZE) 0, List.replicate (3 * ARRAY_SIZE) 0,
    List.replicate (3 * ARRAY_SIZE) 0, []⟩

/-- Three buffers of `ARRAY_SIZE` elements each with other contents than
`freshMem` (all 7, all 8, all 9) and an empty trace. -/
def staleMem : Mem ℚ :=
  ⟨List.replicate (3 * ARRAY_SIZE) 7, List.replicate (3 * ARRAY_SIZE) 8,
    List.replicate (3 * ARRAY_SIZE) 9, []⟩

/-! ## Memory and intrinsics -/


theorem Mem.log_log (m : Mem α) (es fs : List Access) : (m.log es).log fs = m.log (es ++ fs) := by
  simp [Mem.log]

@[simp]
theorem Mem.log_a (m : Mem α) (es : List Access) : (m.log es).a = m.a := rfl
@[simp]
theorem Mem.log_b (m : Mem α) (es : List Access) : (m.log es).b = m.b := rfl
@[simp]
theorem Mem.log_result (m : Mem α) (es : List Access) : (m.log es).result = m.result := rfl
@[simp]
theorem Mem.log_trace (m : Mem α) (es : List Access) :
    (m.log es).trace = m.trace ++ es := rfl
@[simp]
theorem Mem.log_buf (m : Mem α) (es : List Access) (buf : Buf) :
    (m.log es).buf buf = m.buf buf := by cases buf <;> rfl
@[simp]
theorem Mem.buf_a (m : Mem α) : m.buf .a = m.a := rfl
@[simp]
theorem Mem.buf_b (m : Mem α) : m.buf .b = m.b := rfl
@[simp]
theorem Mem.buf_result (m : Mem α) : m.buf .result = m.result := rfl
@[simp]
theorem Mem.setBuf_result_a (m : Mem α) (l : List α) : (m.setBuf .result l).a = m.a := rfl
@[simp]
theorem Mem.setBuf_result_b (m : Mem α) (l : List α) : (m.setBuf .result l).b = m.b := rfl
@[simp]
theorem Mem.setBuf_result_result (m : Mem α) (l : List α) :
    (m.setBuf .result l).result = l := rfl
@[simp]
theorem Mem.setBuf_trace (m : Mem α) (buf : Buf) (l : List α) :
    (m.setBuf buf l).trace = m.trace := by cases buf <;> rfl

theorem window4_some (l : List α) (p : Nat) (h : p + 3 < l.length) :
    ∃ v, window4 l p = some v ∧ l[p]? = some v.l0 ∧ l[p + 1]? = some v.l1 ∧
      l[p + 2]? = some v.l2 ∧ l[p + 3]? = some v.l3 := by
  refine ⟨⟨l[p], l[p + 1], l[p + 2], l[p + 3]⟩, ?_, ?_, ?_, ?_, ?_⟩
  · unfold window4
    rw [List.getElem?_eq_getElem (by omega : p < _), List.getElem?_eq_getElem (by omega : p + 1 < _),
      List.getElem?_eq_getElem (by omega : p + 2 < _), List.getElem?_eq_getElem (by omega : p + 3 < _)]
  all_goals exact List.getElem?_eq_getElem _

theorem vld1q_f32_eq (m : Mem α) (buf : Buf) (p : Nat) :
    vld1q_f32 m buf p = (window4 (m.buf buf) p).map fun v =>
      (v, m.log [.load buf p, .load buf (p + 1), .load buf (p + 2), .load buf (p + 3)]) := by
  unfold vld1q_f32 window4
  split <;> simp_all

theorem add_vectors_loads_spec (m : Mem α) (i : Nat)
    (ha : 3 * i + 6 ≤ m.a.length) (hb : 3 * i + 6 ≤ m.b.length) :
    ∃ r, add_vectors_loads m i = some (r, m.log (loads_trace i)) ∧
      window4 m.a (3 * i) = some r.ax ∧ window4 m.a (3 * i + 1) = some r.ay ∧
      window4 m.a (3 * i + 2) = some r.az ∧ window4 m.b (3 * i) = some r.bx ∧
      window4 m.b (3 * i + 1) = some r.by_ ∧ window4 m.b (3 * i + 2) = some r.bz := by
  obtain ⟨ax, hax, -⟩ := window4_some m.a (3 * i) (by omega)
  obtain ⟨ay, hay, -⟩ := window4_some m.a (3 * i + 1) (by omega)
  obtain ⟨az, haz, -⟩ := window4_some m.a (3 * i + 2) (by omega)
  obtain ⟨bx, hbx, -⟩ := window4_some m.b (3 * i) (by omega)
  obtain ⟨by_, hby, -⟩ := window4_some m.b (3 * i + 1) (by omega)
  obtain ⟨bz, hbz, -⟩ := window4_some m.b (3 * i + 2) (by omega)
  refine ⟨⟨ax, ay, az, bx, by_, bz⟩, ?_, hax, hay, haz, hbx, hby, hbz⟩
  simp only [add_vectors_loads, vld1q_f32_eq, Mem.log_buf, Mem.buf_a, Mem.buf_b, Mem.log_a,
    Mem.log_b, hax, hay, haz, hbx, hby, hbz, Option.map_some', Option.some_bind, Mem.log_log,
    loads_trace, List.cons_append, List.nil_append]

@[simp]
theorem write4_length (l : List α) (p : Nat) (v : float32x4_t α) :
    (write4 l p v).length = l.length := by simp [write4]

theorem write4_getElem? (l : List α) (p : Nat) (v : float32x4_t α) (h : p + 3 < l.length) (q : Nat) :
    (write4 l p v)[q]? =
      if q = p then some v.l0 else if q = p + 1 then some v.l1 else if q = p + 2 then some v.l2
      else if q = p + 3 then some v.l3 else l[q]? := by
  simp only [write4, List.getElem?_set, List.length_set]
  split_ifs <;> first | rfl | omega

theorem vst1q_f32_result (m : Mem α) (p : Nat) (v : float32x4_t α) (h : p + 3 < m.result.length) :
    vst1q_f32 m .result p v = some ((m.setBuf .result (write4 m.result p v)).log
      [.store .result p, .store .result (p + 1), .store .result (p + 2), .store .result (p + 3)]) := by
  simp [vst1q_f32, h, write4]

theorem add_vectors_stores_spec (m : Mem α) (i : Nat) (o : OutRegs α)
    (hr : 3 * i + 6 ≤ m.result.length) :
    add_vectors_stores m i o = some
      { a := m.a, b := m.b,
        result := write4 (write4 (write4 m.result (3 * i) o.rx) (3 * i + 1) o.ry) (3 * i + 2) o.rz,
        trace := m.trace ++ stores_trace i } := by
  unfold add_vectors_stores
  rw [vst1q_f32_result _ _ _ (by omega), Option.some_bind,
    vst1q_f32_result _ _ _ (by simp; omega), Option.some_bind,
    vst1q_f32_result _ _ _ (by simp; omega)]
  simp [Mem.setBuf, Mem.log, stores_trace]

theorem window4_getElem? (l : List α) (p : Nat) (v : float32x4_t α) (h : window4 l p = some v) :
    l[p]? = some v.l0 ∧ l[p + 1]? = some v.l1 ∧ l[p + 2]? = some v.l2 ∧ l[p + 3]? = some v.l3 := by
  unfold window4 at h
  split at h
  · rw [Option.some.injEq] at h
    subst h
    refine ⟨?_, ?_, ?_, ?_⟩ <;> assumption
  · simp at h

theorem add_vectors_body_spec (add : α → α → α) (m : Mem α) (i : Nat)
    (ha : 3 * i + 6 ≤ m.a.length) (hb : 3 * i + 6 ≤ m.b.length)
    (hr : 3 * i + 6 ≤ m.result.length) :
    ∃ m', add_vectors_body add m i = some m' ∧ m'.a = m.a ∧ m'.b = m.b ∧
      m'.result.length = m.result.length ∧
      m'.trace = m.trace ++ (loads_trace i ++ stores_trace i) ∧
      ∀ p, m'.result[p]? =
        if 3 * i ≤ p ∧ p < 3 * i + 6 then sumAt add m.a m.b p else m.result[p]? := by
  obtain ⟨r, hl, hax, hay, haz, hbx, hby, hbz⟩ := add_vectors_loads_spec m i ha hb
  have hs := add_vectors_stores_spec (m.log (loads_trace i)) i (add_vectors_adds add r)
    (by simpa using hr)
  have hbody : add_vectors_body add m i
      = add_vectors_stores (m.log (loads_trace i)) i (add_vectors_adds add r) := by
    rw [add_vectors_body, hl]
    rfl
  rw [hs] at hbody
  refine ⟨_, hbody, rfl, rfl, by simp, by simp, ?_⟩
  intro p
  obtain ⟨a0, -, -, -⟩ := window4_getElem? _ _ _ hax
  obtain ⟨a1, -, -, -⟩ := window4_getElem? _ _ _ hay
  obtain ⟨a2, a3, a4, a5⟩ := window4_getElem? _ _ _ haz
  obtain ⟨b0, -, -, -⟩ := window4_getElem? _ _ _ hbx
  obtain ⟨b1, -, -, -⟩ := window4_getElem? _ _ _ hby
  obtain ⟨b2, b3, b4, b5⟩ := window4_getElem? _ _ _ hbz
  clear hs hbody hl hax hay haz hbx hby hbz
  simp only [Mem.log_result, write4_getElem? _ _ _ (show 3 * i + 2 + 3 < (write4 (write4 m.result (3 * i) _) (3 * i + 1) _).length by simp; omega),
    write4_getElem? _ _ _ (show 3 * i + 1 + 3 < (write4 m.result (3 * i) _).length by simp; omega),
    write4_getElem? _ _ _ (show 3 * i + 3 < m.result.length by omega)]
  split_ifs <;> first
    | omega
    | rfl
    | (subst_vars; simp [sumAt, add_vectors_adds, vaddq_f32, *])


/-! ## The loop of add_vectors -/

theorem add_vectors_loop_lt (add : α → α → α) (size : Int) (i : Nat) (m : Mem α)
    (h : (i : Int) < size) :
    add_vectors_loop add size i m
      = (add_vectors_body add m i).bind (add_vectors_loop add size (i + 4)) := by
  rw [add_vectors_loop, if_pos h]

theorem add_vectors_loop_ge (add : α → α → α) (size : Int) (i : Nat) (m : Mem α)
    (h : ¬ (i : Int) < size) :
    add_vectors_loop add size i m = some m := by
  rw [add_vectors_loop, if_neg h]

/-- Running `k` iterations from base index `i`: with the buffers long enough
for them, the loop returns, leaves `a` and `b` alone, logs exactly the accesses
of the `k` iterations, and each float slot of `result` holds `a[p] + b[p]` when
it lies in the first six floats of one of the `k` groups and its old value
otherwise. -/
theorem add_vectors_loop_spec (add : α → α → α) (size : Int) (k : Nat) :
    ∀ (i : Nat) (m : Mem α), size ≤ (i : Int) + 4 * k →
      (k = 0 ∨ (i : Int) + 4 * k < size + 4) →
      (k = 0 ∨ 3 * i + 12 * k ≤ m.a.length + 6) →
      (k = 0 ∨ 3 * i + 12 * k ≤ m.b.length + 6) →
      (k = 0 ∨ 3 * i + 12 * k ≤ m.result.length + 6) →
      ∃ m', add_vectors_loop add size i m = some m' ∧ m'.a = m.a ∧ m'.b = m.b ∧
        m'.result.length = m.result.length ∧
        m'.trace = m.trace ++ iterations_trace i k ∧
        ∀ p, m'.result[p]? =
          if 3 * i ≤ p ∧ (p - 3 * i) / 12 < k ∧ (p - 3 * i) % 12 < 6
          then sumAt add m.a m.b p else m.result[p]? := by
  induction k with
  | zero =>
    intro i m h1 _ _ _ _
    refine ⟨m, add_vectors_loop_ge add size i m (by omega), rfl, rfl, rfl, by simp [iterations_trace], ?_⟩
    intro p
    rw [if_neg (by omega)]
  | succ k ih =>
    intro i m h1 h2 ha hb hr
    obtain ⟨m1, e1, a1, b1, l1, t1, r1⟩ :=
      add_vectors_body_spec add m i (by omega) (by omega) (by omega)
    obtain ⟨m2, e2, a2, b2, l2, t2, r2⟩ := ih (i + 4) m1 (by push_cast; omega)
      (by push_cast; omega) (by rw [a1]; omega) (by rw [b1]; omega) (by rw [l1]; omega)
    refine ⟨m2, ?_, by rw [a2, a1], by rw [b2, b1], by rw [l2, l1], ?_, ?_⟩
    · rw [add_vectors_loop_lt add size i m (by omega), e1, Option.some_bind, e2]
    · rw [t2, t1, iterations_trace, List.append_assoc]
    · intro p
      rw [r2, r1, a1, b1]
      split_ifs <;> first | rfl | omega


/-- For a size that is a non-negative multiple of 4 and buffers of at least
`3 * size` floats the kernel returns; group by group, the first two elements
receive the sums and the last two keep their old contents. -/
theorem add_vectors_mul4 (add : α → α → α) (m : Mem α) (size : Int) (h0 : 0 ≤ size)
    (h4 : size % 4 = 0) (ha : 3 * size.toNat ≤ m.a.length) (hb : 3 * size.toNat ≤ m.b.length)
    (hr : 3 * size.toNat ≤ m.result.length) :
    ∃ m', add_vectors add m size = some m' ∧ m'.a = m.a ∧ m'.b = m.b ∧
      m'.result.length = m.result.length ∧
      m'.trace = m.trace ++ iterations_trace 0 (size.toNat / 4) ∧
      ∀ p, m'.result[p]? =
        if p < 3 * size.toNat ∧ (p / 3) % 4 < 2 then sumAt add m.a m.b p else m.result[p]? := by
  obtain ⟨m', e, a', b', l', t', r'⟩ := add_vectors_loop_spec add size (size.toNat / 4) 0 m
    (by omega) (by omega) (by omega) (by omega) (by omega)
  refine ⟨m', e, a', b', l', t', ?_⟩
  intro p
  rw [r' p]
  split_ifs <;> first | rfl | omega

theorem group_trace_pos (i : Nat) :
    ∀ e ∈ loads_trace i ++ stores_trace i, e.pos < 3 * i + 6 := by
  simp only [loads_trace, stores_trace, List.forall_mem_append, List.forall_mem_cons,
    Access.pos, List.not_mem_nil, false_implies, implies_true, and_true]
  omega

theorem iterations_trace_pos (n : Nat) (k : Nat) :
    ∀ i, 3 * i + 12 * k ≤ n + 6 → ∀ e ∈ iterations_trace i k, e.pos < n := by
  induction k with
  | zero => intro i _ e he; simp [iterations_trace] at he
  | succ k ih =>
    intro i h e he
    rw [iterations_trace, List.mem_append] at he
    rcases he with he | he
    · have := group_trace_pos i e he
      omega
    · exact ih (i + 4) (by omega) e he


/-! ## Frame: what a returning run can have changed -/

theorem storeFloat_a (m : Mem α) (p : Nat) (v : α) (h : p < m.a.length) :
    storeFloat m .a p v = some
      { a := m.a.set p v, b := m.b, result := m.result, trace := m.trace ++ [.store .a p] } := by
  simp [storeFloat, h, Mem.setBuf, Mem.log]

theorem storeFloat_b (m : Mem α) (p : Nat) (v : α) (h : p < m.b.length) :
    storeFloat m .b p v = some
      { a := m.a, b := m.b.set p v, result := m.result, trace := m.trace ++ [.store .b p] } := by
  simp [storeFloat, h, Mem.setBuf, Mem.log]

theorem fill_body_eq (ops : FloatOps α) (m : Mem α) (i : Nat)
    (ha : 3 * i + 3 ≤ m.a.length) (hb : 3 * i + 3 ≤ m.b.length) :
    fill_body ops m i = some
      { a := ((m.a.set (3 * i) (ops.mul (ops.ofInt i) (ops.tenths 1))).set (3 * i + 1)
            (ops.mul (ops.ofInt i) (ops.tenths 2))).set (3 * i + 2)
            (ops.mul (ops.ofInt i) (ops.tenths 3)),
        b := ((m.b.set (3 * i) (ops.mul (ops.ofInt i) (ops.tenths 4))).set (3 * i + 1)
            (ops.mul (ops.ofInt i) (ops.tenths 5))).set (3 * i + 2)
            (ops.mul (ops.ofInt i) (ops.tenths 6)),
        result := m.result,
        trace := m.trace ++ [.store .a (3 * i), .store .a (3 * i + 1), .store .a (3 * i + 2),
          .store .b (3 * i), .store .b (3 * i + 1), .store .b (3 * i + 2)] } := by
  unfold fill_body
  rw [storeFloat_a _ _ _ (by omega), Option.some_bind,
    storeFloat_a _ _ _ (by simp; omega), Option.some_bind,
    storeFloat_a _ _ _ (by simp; omega), Option.some_bind,
    storeFloat_b _ _ _ (by simp; omega), Option.some_bind,
    storeFloat_b _ _ _ (by simp; omega), Option.some_bind,
    storeFloat_b _ _ _ (by simp; omega)]
  simp

theorem loadFloat_result (m : Mem α) (p : Nat) (h : p < m.result.length) :
    loadFloat m .result p = some (m.result[p], m.log [.load .result p]) := by
  simp [loadFloat, List.getElem?_eq_getElem h]

theorem add_vectors_loop_last (add : α → α → α) (size : Int) (i : Nat)
    (h1 : (i : Int) < size) (h2 : size ≤ (i : Int) + 4) :
    add_vectors_loop add size i = fun m => add_vectors_body add m i := by
  funext m
  rw [add_vectors_loop_lt add size i m h1]
  cases add_vectors_body add m i with
  | none => rfl
  | some m1 => rw [Option.some_bind, add_vectors_loop_ge add size (i + 4) m1 (by push_cast; omega)]

theorem add_vectors_four (add : α → α → α) (m : Mem α) :
    add_vectors add m 4 = add_vectors_body add m 0 := by
  rw [add_vectors, add_vectors_loop_last add 4 0 (by decide) (by decide)]

theorem add_vectors_eight (add : α → α → α) (m : Mem α) :
    add_vectors add m 8 = (add_vectors_body add m 0).bind fun m => add_vectors_body add m 4 := by
  rw [add_vectors, add_vectors_loop_lt add 8 0 m (by decide),
    add_vectors_loop_last add 8 (0 + 4) (by decide) (by decide)]

/-! ## Elements of a Vector3 array -/

theorem vec3At_some (l : List α) (i : Nat) (h : 3 * i + 3 ≤ l.length) :
    ∃ u, vec3At l i = some u ∧ l[3 * i]? = some u.x ∧ l[3 * i + 1]? = some u.y ∧
      l[3 * i + 2]? = some u.z := by
  refine ⟨⟨l[3 * i], l[3 * i + 1], l[3 * i + 2]⟩, ?_, ?_, ?_, ?_⟩
  · unfold vec3At
    rw [List.getElem?_eq_getElem (by omega : 3 * i < _),
      List.getElem?_eq_getElem (by omega : 3 * i + 1 < _),
      List.getElem?_eq_getElem (by omega : 3 * i + 2 < _)]
  all_goals exact List.getElem?_eq_getElem _

theorem vec3At_of_getElem? (l : List α) (i : Nat) (x y z : α) (hx : l[3 * i]? = some x)
    (hy : l[3 * i + 1]? = some y) (hz : l[3 * i + 2]? = some z) :
    vec3At l i = some ⟨x, y, z⟩ := by
  unfold vec3At
  rw [hx, hy, hz]

theorem sumAt_of_getElem? (add : α → α → α) (a b : List α) (p : Nat) (x y : α)
    (hx : a[p]? = some x) (hy : b[p]? = some y) : sumAt add a b p = some (add x y) := by
  unfold sumAt
  rw [hx, hy]

/-! ## The control of the loop of add_vectors -/

theorem mem_iterations_trace (e : Access) (k : Nat) :
    ∀ (i j : Nat), j < k → e ∈ loads_trace (i + 4 * j) ++ stores_trace (i + 4 * j) →
      e ∈ iterations_trace i k := by
  induction k with
  | zero => intro i j hj; omega
  | succ k ih =>
    intro i j hj he
    rw [iterations_trace, List.mem_append]
    cases j with
    | zero => exact Or.inl he
    | succ j =>
      refine Or.inr (ih (i + 4) j (by omega) ?_)
      have : i + 4 + 4 * j = i + 4 * (j + 1) := by omega
      rw [this]
      exact he

theorem fill_value_at (ops : FloatOps α) (k0 i k : Nat) (hk : k < 3) :
    fill_value ops k0 (3 * i + k) = ops.mul (ops.ofInt (i : Int)) (ops.tenths (k + k0)) := by
  have h1 : (3 * i + k) / 3 = i := by omega
  have h2 : (3 * i + k) % 3 = k := by omega
  rw [fill_value, h1, h2]

theorem set3_getElem? (l : List α) (q : Nat) (x y z : α) (f : Nat → α) (h : q + 3 ≤ l.length)
    (hx : f q = x) (hy : f (q + 1) = y) (hz : f (q + 2) = z) (p : Nat) :
    (((l.set q x).set (q + 1) y).set (q + 2) z)[p]?
      = if q ≤ p ∧ p < q + 3 then some (f p) else l[p]? := by
  simp only [List.getElem?_set, List.length_set]
  split_ifs <;> first
    | omega
    | rfl
    | (subst_vars; rfl)

theorem fill_body_spec (ops : FloatOps α) (m : Mem α) (i : Nat)
    (ha : 3 * i + 3 ≤ m.a.length) (hb : 3 * i + 3 ≤ m.b.length) :
    ∃ m', fill_body ops m i = some m' ∧ m'.a.length = m.a.length ∧
      m'.b.length = m.b.length ∧ m'.result = m.result ∧
      m'.trace = m.trace ++ fill_trace_at i ∧
      (∀ p, m'.a[p]? = if 3 * i ≤ p ∧ p < 3 * i + 3 then some (fill_value ops 1 p)
        else m.a[p]?) ∧
      (∀ p, m'.b[p]? = if 3 * i ≤ p ∧ p < 3 * i + 3 then some (fill_value ops 4 p)
        else m.b[p]?) := by
  refine ⟨_, fill_body_eq ops m i ha hb, by simp, by simp, rfl, rfl, ?_, ?_⟩
  · intro p
    exact set3_getElem? m.a (3 * i) _ _ _ (fill_value ops 1) ha
      (fill_value_at ops 1 i 0 (by omega)) (fill_value_at ops 1 i 1 (by omega))
      (fill_value_at ops 1 i 2 (by omega)) p
  · intro p
    exact set3_getElem? m.b (3 * i) _ _ _ (fill_value ops 4) hb
      (fill_value_at ops 4 i 0 (by omega)) (fill_value_at ops 4 i 1 (by omega))
      (fill_value_at ops 4 i 2 (by omega)) p

/-- The fill loop entered with index `i` returns, keeps the lengths and
`result`, logs the stores of its iterations, and sets every float of `a` and
`b` from position `3 * i` on to its fill value. -/
theorem fill_loop_spec (ops : FloatOps α) (n : Nat) :
    ∀ (i : Nat) (m : Mem α), i + n = ARRAY_SIZE → 3 * ARRAY_SIZE ≤ m.a.length →
      3 * ARRAY_SIZE ≤ m.b.length →
      ∃ m', fill_loop ops i m = some m' ∧ m'.a.length = m.a.length ∧
        m'.b.length = m.b.length ∧ m'.result = m.result ∧
        m'.trace = m.trace ++ fill_trace i n ∧
        (∀ p, m'.a[p]? = if 3 * i ≤ p ∧ p < 3 * ARRAY_SIZE then some (fill_value ops 1 p)
          else m.a[p]?) ∧
        (∀ p, m'.b[p]? = if 3 * i ≤ p ∧ p < 3 * ARRAY_SIZE then some (fill_value ops 4 p)
          else m.b[p]?) := by
  induction n with
  | zero =>
    intro i m hn _ _
    refine ⟨m, ?_, rfl, rfl, rfl, by simp [fill_trace], ?_, ?_⟩
    · rw [fill_loop, if_neg (by omega)]
    · intro p
      rw [if_neg (by omega)]
    · intro p
      rw [if_neg (by omega)]
  | succ n ih =>
    intro i m hn ha hb
    obtain ⟨m1, e1, a1, b1, r1, t1, pa1, pb1⟩ := fill_body_spec ops m i (by omega) (by omega)
    obtain ⟨m2, e2, a2, b2, r2, t2, pa2, pb2⟩ := ih (i + 1) m1 (by omega) (by omega) (by omega)
    refine ⟨m2, ?_, by rw [a2, a1], by rw [b2, b1], by rw [r2, r1], ?_, ?_, ?_⟩
    · rw [fill_loop, if_pos (by omega), e1, Option.some_bind, e2]
    · rw [t2, t1, fill_trace, List.append_assoc]
    · intro p
      rw [pa2, pa1]
      split_ifs <;> first | rfl | omega
    · intro p
      rw [pb2, pb1]
      split_ifs <;> first | rfl | omega

theorem fill_trace_pos (n : Nat) :
    ∀ i, ∀ e ∈ fill_trace i n, e.pos < 3 * (i + n) ∧ e.isStore = true := by
  induction n with
  | zero => intro i e he; simp [fill_trace] at he
  | succ n ih =>
    intro i e he
    rw [fill_trace, List.mem_append] at he
    rcases he with he | he
    · simp only [fill_trace_at, List.mem_cons, List.mem_singleton, List.not_mem_nil,
        or_false] at he
      rcases he with h | h | h | h | h | h <;> subst h <;>
        exact ⟨by simp only [Access.pos]; omega, rfl⟩
    · have := ih (i + 1) e he
      exact ⟨by omega, this.2⟩

/-! ## The timed loop of main -/

theorem run_body_spec (ops : FloatOps α) (m : Mem α) (sink : α)
    (ha : 3 * ARRAY_SIZE ≤ m.a.length) (hb : 3 * ARRAY_SIZE ≤ m.b.length)
    (hr : 3 * ARRAY_SIZE ≤ m.result.length) :
    ∃ st, run_body ops m sink = some st ∧ st.1.a = m.a ∧ st.1.b = m.b ∧
      st.1.result.length = m.result.length ∧
      st.1.trace = m.trace ++ run_trace ∧
      ∀ x y z, sumAt ops.add m.a m.b 0 = some x → sumAt ops.add m.a m.b 1 = some y →
        sumAt ops.add m.a m.b 2 = some z →
        st.2 = ops.add sink (ops.add (ops.add x y) z) ∧
          vec3At st.1.result 0 = some ⟨x, y, z⟩ := by
  have hpos : 3 ≤ 3 * ARRAY_SIZE := by decide
  obtain ⟨m1, e1, a1, b1, l1, t1, p1⟩ := add_vectors_mul4 ops.add m (ARRAY_SIZE : Int)
    (by omega) (by decide) (by simpa using ha) (by simpa using hb) (by simpa using hr)
  have h0 : 0 < m1.result.length := by omega
  have h1 : 1 < m1.result.length := by omega
  have h2 : 2 < m1.result.length := by omega
  have e : run_body ops m sink = some
      (((m1.log [.load .result 0]).log [.load .result 1]).log [.load .result 2],
        ops.add sink (ops.add (ops.add (m1.result[0]) (m1.result[1])) (m1.result[2]))) := by
    unfold run_body
    rw [e1, Option.some_bind, loadFloat_result _ _ (by omega)]
    simp only [Option.some_bind]
    rw [loadFloat_result _ _ (by simp; omega)]
    simp only [Option.some_bind]
    rw [loadFloat_result _ _ (by simp; omega)]
    rfl
  refine ⟨_, e, by simpa using a1, by simpa using b1, by simpa using l1, ?_, ?_⟩
  · simp only [Mem.log_trace, t1, run_trace, Int.toNat_ofNat, List.append_assoc,
      List.cons_append, List.nil_append]
  · intro x y z hx hy hz
    have q0 := p1 0
    have q1 := p1 1
    have q2 := p1 2
    rw [if_pos (by decide), hx, List.getElem?_eq_getElem h0] at q0
    rw [if_pos (by decide), hy, List.getElem?_eq_getElem h1] at q1
    rw [if_pos (by decide), hz, List.getElem?_eq_getElem h2] at q2
    rw [Option.some.injEq] at q0 q1 q2
    refine ⟨?_, ?_⟩
    · simp only [q0, q1, q2]
    · apply vec3At_of_getElem?
      · simp only [Mem.log_result, List.getElem?_eq_getElem h0, q0]
      · simp only [Mem.log_result, List.getElem?_eq_getElem h1, q1]
      · simp only [Mem.log_result, List.getElem?_eq_getElem h2, q2]

theorem run_step_none (ops : FloatOps α) (n : Nat) :
    Nat.iterate (run_step ops) n (none : Option (Mem α × α)) = none := by
  induction n with
  | zero => rfl
  | succ n ih => rw [Function.iterate_succ_apply]; exact ih

/-- The timed loop entered with `run` is the body applied `NUM_RUNS - run`
times. -/
theorem run_loop_eq_iterate (ops : FloatOps α) (n : Nat) :
    ∀ (run : Nat) (st : Mem α × α), run + n = NUM_RUNS →
      run_loop ops run st = Nat.iterate (run_step ops) n (some st) := by
  induction n with
  | zero =>
    intro run st hn
    rw [run_loop, if_neg (by omega)]
    rfl
  | succ n ih =>
    intro run st hn
    rw [run_loop, if_pos (by omega), Function.iterate_succ_apply]
    show _ = Nat.iterate (run_step ops) n (run_body ops st.1 st.2)
    cases run_body ops st.1 st.2 with
    | none => rw [run_step_none]; rfl
    | some s1 => rw [Option.some_bind, ih (run + 1) s1 (by omega)]

/-- The outcome of `n` runs from a state whose buffers hold `ARRAY_SIZE`
elements: they all return, `a` and `b` stay, the sink grew `n` times by the sum
of the three components of `a[0] + b[0]`, the trace grew by `n` run traces and
`result[0]` is `a[0] + b[0]` once a run was made. -/
theorem runs_spec (ops : FloatOps α) (x y z : α) (n : Nat) :
    ∀ st : Mem α × α, 3 * ARRAY_SIZE ≤ st.1.a.length → 3 * ARRAY_SIZE ≤ st.1.b.length →
      3 * ARRAY_SIZE ≤ st.1.result.length →
      sumAt ops.add st.1.a st.1.b 0 = some x → sumAt ops.add st.1.a st.1.b 1 = some y →
      sumAt ops.add st.1.a st.1.b 2 = some z →
      ∃ st', Nat.iterate (run_step ops) n (some st) = some st' ∧ st'.1.a = st.1.a ∧
        st'.1.b = st.1.b ∧ st'.1.result.length = st.1.result.length ∧
        st'.2 = sink_after ops (ops.add (ops.add x y) z) n st.2 ∧
        st'.1.trace = st.1.trace ++ (List.replicate n run_trace).flatten ∧
        (0 < n → vec3At st'.1.result 0 = some ⟨x, y, z⟩) := by
  induction n with
  | zero =>
    intro st _ _ _ _ _ _
    exact ⟨st, rfl, rfl, rfl, rfl, rfl, by simp, by omega⟩
  | succ n ih =>
    intro st ha hb hr hx hy hz
    obtain ⟨s1, e1, a1, b1, l1, t1, v1⟩ := run_body_spec ops st.1 st.2 ha hb hr
    obtain ⟨k1, w1⟩ := v1 x y z hx hy hz
    obtain ⟨s2, e2, a2, b2, l2, k2, t2, w2⟩ := ih s1 (by rw [a1]; exact ha)
      (by rw [b1]; exact hb) (by rw [l1]; exact hr) (by rw [a1, b1]; exact hx)
      (by rw [a1, b1]; exact hy) (by rw [a1, b1]; exact hz)
    refine ⟨s2, ?_, by rw [a2, a1], by rw [b2, b1], by rw [l2, l1], ?_, ?_, ?_⟩
    · rw [Function.iterate_succ_apply]
      show Nat.iterate (run_step ops) n (run_body ops st.1 st.2) = some s2
      rw [e1, e2]
    · rw [k2, k1, sink_after, sink_after, Function.iterate_succ_apply]
    · rw [t2, t1, List.replicate_succ, List.flatten_cons, List.append_assoc]
    · intro _
      cases n with
      | zero =>
        simp only [Function.iterate_zero, id_eq, Option.some.injEq] at e2
        rw [← e2]
        exact w1
      | succ n => exact w2 (by omega)

/-! ## Reads of result come after writes -/

theorem readOk_mono (s1 s2 : List Access) (h : ∀ x ∈ s1, x ∈ s2) (e : Access)
    (he : readOk s1 e = true) : readOk s2 e = true := by
  cases e with
  | store buf p => rfl
  | load buf p =>
    cases buf with
    | a => rfl
    | b => rfl
    | result =>
      simp only [readOk, decide_eq_true_eq] at he ⊢
      exact h _ he

theorem initializedReads_mono (t : List Access) :
    ∀ s1 s2 : List Access, (∀ x ∈ s1, x ∈ s2) → initializedReads s1 t = true →
      initializedReads s2 t = true := by
  induction t with
  | nil => intro _ _ _ _; rfl
  | cons e t ih =>
    intro s1 s2 h h1
    simp only [initializedReads, Bool.and_eq_true] at h1 ⊢
    refine ⟨readOk_mono s1 s2 h e h1.1, ih (e :: s1) (e :: s2) ?_ h1.2⟩
    intro x hx
    rw [List.mem_cons] at hx ⊢
    exact hx.imp id (h x)

theorem initializedReads_of_no_result_load (t : List Access)
    (h : ∀ e ∈ t, ∀ p, e ≠ Access.load .result p) :
    ∀ s : List Access, initializedReads s t = true := by
  induction t with
  | nil => intro _; rfl
  | cons e t ih =>
    intro s
    simp only [initializedReads, Bool.and_eq_true]
    refine ⟨?_, ih (fun x hx => h x (List.mem_cons_of_mem _ hx)) _⟩
    have he := h e (List.mem_cons_self _ _)
    cases e with
    | store buf p => rfl
    | load buf p =>
      cases buf with
      | a => rfl
      | b => rfl
      | result => exact absurd rfl (he p)

theorem initializedReads_append (t1 : List Access) :
    ∀ (s t2 : List Access), initializedReads s t1 = true →
      initializedReads (t1.reverse ++ s) t2 = true → initializedReads s (t1 ++ t2) = true := by
  induction t1 with
  | nil => intro s t2 _ h2; exact h2
  | cons e t1 ih =>
    intro s t2 h1 h2
    simp only [List.cons_append, initializedReads, Bool.and_eq_true] at h1 ⊢
    refine ⟨h1.1, ih (e :: s) t2 h1.2 ?_⟩
    rw [List.reverse_cons, List.append_assoc] at h2
    exact h2

theorem iterations_trace_no_result_load (k : Nat) :
    ∀ i, ∀ e ∈ iterations_trace i k, ∀ p, e ≠ Access.load .result p := by
  induction k with
  | zero => intro i e he; simp [iterations_trace] at he
  | succ k ih =>
    intro i e he p
    rw [iterations_trace, List.mem_append] at he
    rcases he with he | he
    · intro hp
      subst hp
      simp [loads_trace, stores_trace] at he
    · exact ih (i + 4) e he p

theorem initializedReads_run_trace (s : List Access) : initializedReads s run_trace = true := by
  have hk : ARRAY_SIZE / 4 = 62499 + 1 := by decide
  have hmem : ∀ p, p < 3 → Access.store .result p ∈ iterations_trace 0 (ARRAY_SIZE / 4) := by
    intro p hp
    rw [hk]
    apply mem_iterations_trace _ _ 0 0 (by omega)
    rcases (by omega : p = 0 ∨ p = 1 ∨ p = 2) with h | h | h <;> subst h <;>
      simp [loads_trace, stores_trace]
  rw [run_trace]
  apply initializedReads_append
  · exact initializedReads_of_no_result_load _ (iterations_trace_no_result_load _ 0) s
  · simp only [initializedReads, readOk, List.mem_cons, List.mem_append,
      List.mem_reverse, Bool.and_eq_true, decide_eq_true_eq, Bool.and_true]
    exact ⟨Or.inl (hmem 0 (by omega)), Or.inr (Or.inl (hmem 1 (by omega))),
      Or.inr (Or.inr (Or.inl (hmem 2 (by omega))))⟩

theorem initializedReads_runs (n : Nat) :
    ∀ s : List Access, initializedReads s (List.replicate n run_trace).flatten = true := by
  induction n with
  | zero => intro _; rfl
  | succ n ih =>
    intro s
    rw [List.replicate_succ, List.flatten_cons]
    exact initializedReads_append _ _ _ (initializedReads_run_trace s) (ih _)

theorem run_trace_pos : ∀ e ∈ run_trace, e.pos < 3 * ARRAY_SIZE := by
  intro e he
  rw [run_trace, List.mem_append] at he
  rcases he with he | he
  · exact iterations_trace_pos (3 * ARRAY_SIZE) (ARRAY_SIZE / 4) 0 (by decide) e he
  · simp only [List.mem_cons, List.mem_singleton, List.not_mem_nil, or_false] at he
    rcases he with h | h | h <;> subst h <;> decide

/-! ## The whole of main -/

/-- With three buffers of `ARRAY_SIZE` elements `main` returns: the fill sets
`a` and `b` to their fill values, the runs leave them alone, and the trace is
the stores of the fill followed by `NUM_RUNS` run traces. -/
theorem main_spec (ops : FloatOps α) (m0 : Mem α)
    (ha : m0.a.length = 3 * ARRAY_SIZE) (hb : m0.b.length = 3 * ARRAY_SIZE)
    (hr : m0.result.length = 3 * ARRAY_SIZE) :
    ∃ mf st, fill_loop ops 0 m0 = some mf ∧ main ops m0 = some st ∧
      mf.a.length = 3 * ARRAY_SIZE ∧ mf.b.length = 3 * ARRAY_SIZE ∧ mf.result = m0.result ∧
      mf.trace = m0.trace ++ fill_trace 0 ARRAY_SIZE ∧
      (∀ p, p < 3 * ARRAY_SIZE → mf.a[p]? = some (fill_value ops 1 p)) ∧
      (∀ p, p < 3 * ARRAY_SIZE → mf.b[p]? = some (fill_value ops 4 p)) ∧
      st.1.a = mf.a ∧ st.1.b = mf.b ∧ st.1.result.length = 3 * ARRAY_SIZE ∧
      st.1.trace = mf.trace ++ (List.replicate NUM_RUNS run_trace).flatten ∧
      ∀ k, ∃ sk, Nat.iterate (run_step ops) k (some (mf, ops.tenths 0)) = some sk ∧
        sk.2 = sink_after ops
          (ops.add (ops.add (ops.add (fill_value ops 1 0) (fill_value ops 4 0))
            (ops.add (fill_value ops 1 1) (fill_value ops 4 1)))
            (ops.add (fill_value ops 1 2) (fill_value ops 4 2))) k (ops.tenths 0) ∧
        (0 < k → vec3At sk.1.result 0 = some
          ⟨ops.add (fill_value ops 1 0) (fill_value ops 4 0),
            ops.add (fill_value ops 1 1) (fill_value ops 4 1),
            ops.add (fill_value ops 1 2) (fill_value ops 4 2)⟩) ∧
        (k = NUM_RUNS → sk = st) := by
  obtain ⟨mf, ef, af, bf, rf, tf, pa, pb⟩ := fill_loop_spec ops ARRAY_SIZE 0 m0 (by omega)
    (by omega) (by omega)
  have qa : ∀ p, p < 3 * ARRAY_SIZE → mf.a[p]? = some (fill_value ops 1 p) := by
    intro p hp
    rw [pa, if_pos ⟨by omega, hp⟩]
  have qb : ∀ p, p < 3 * ARRAY_SIZE → mf.b[p]? = some (fill_value ops 4 p) := by
    intro p hp
    rw [pb, if_pos ⟨by omega, hp⟩]
  have hruns := fun k => runs_spec ops (ops.add (fill_value ops 1 0) (fill_value ops 4 0))
    (ops.add (fill_value ops 1 1) (fill_value ops 4 1))
    (ops.add (fill_value ops 1 2) (fill_value ops 4 2)) k (mf, ops.tenths 0)
    (by simp only [af]; omega) (by simp only [bf]; omega) (by simp only [rf]; omega)
    (sumAt_of_getElem? _ _ _ _ _ _ (qa 0 (by decide)) (qb 0 (by decide)))
    (sumAt_of_getElem? _ _ _ _ _ _ (qa 1 (by decide)) (qb 1 (by decide)))
    (sumAt_of_getElem? _ _ _ _ _ _ (qa 2 (by decide)) (qb 2 (by decide)))
  obtain ⟨st, es, a1, b1, l1, -, t1, -⟩ := hruns NUM_RUNS
  refine ⟨mf, st, ef, ?_, by rw [af, ha], by rw [bf, hb], rf, tf, qa, qb, a1, b1,
    by rw [l1]; simp only [rf, hr], t1, ?_⟩
  · rw [main, ef, Option.some_bind, run_loop_eq_iterate ops NUM_RUNS 0 _ (by omega)]
    exact es
  · intro k
    obtain ⟨sk, ek, -, -, -, kk, -, wk⟩ := hruns k
    refine ⟨sk, ek, kk, wk, ?_⟩
    intro hk
    subst hk
    rw [es] at ek
    exact (Option.some.inj ek).symm

/-! ## The claims -/

/-- C1 (code defect): in the scenario size = 8, a[i] = (i,i,i), b[i] = (1,1,1),
with result initially all zero, the kernel writes the sums only into elements
0, 1, 4 and 5; elements 2, 3, 6 and 7 keep their old contents.  In particular
result[2] is still (0,0,0) although a[2] = (2,2,2), b[2] = (1,1,1) and their
sum is (3,3,3). -/
theorem add_vectors_scenario8_misses_elements :
    kernel Int.add scenA8 scenB8 zeros24 8
        = some [1, 1, 1, 2, 2, 2, 0, 0, 0, 0, 0, 0, 5, 5, 5, 6, 6, 6, 0, 0, 0, 0, 0, 0] ∧
      (kernel Int.add scenA8 scenB8 zeros24 8).bind (fun res => vec3At res 2)
        = some ⟨0, 0, 0⟩ ∧
      vec3At scenA8 2 = some ⟨2, 2, 2⟩ ∧ vec3At scenB8 2 = some ⟨1, 1, 1⟩ ∧
      Vector3.add Int.add ⟨2, 2, 2⟩ ⟨1, 1, 1⟩ = (⟨3, 3, 3⟩ : Vector3 Int) := by
  rw [kernel, add_vectors_eight]
  decide

/-- C2 (code defect): with the same a and b (size = 4), starting from an
all-zero and from an all-one result buffer leaves different contents: the
elements 2 and 3 keep whatever the buffer held before the call. -/
theorem add_vectors_output_depends_on_old_result :
    kernel Int.add exA4 exB4 zeros12 4
        = some [100, 101, 102, 103, 104, 105, 0, 0, 0, 0, 0, 0] ∧
      kernel Int.add exA4 exB4 ones12 4
        = some [100, 101, 102, 103, 104, 105, 1, 1, 1, 1, 1, 1] ∧
      kernel Int.add exA4 exB4 zeros12 4 ≠ kernel Int.add exA4 exB4 ones12 4 := by
  rw [kernel, kernel, add_vectors_four, add_vectors_four]
  decide


/-- C3: with buffers a, b, result of exactly 3 * size floats and size a
non-negative multiple of 4, the bounds-checked kernel returns (no load or store
takes the out-of-range branch), and every float slot read or written during the
call has a position below 3 * size. -/
theorem add_vectors_in_bounds (add : α → α → α) (a b r : List α) (size : Int)
    (h0 : 0 ≤ size) (h4 : size % 4 = 0) (ha : a.length = 3 * size.toNat)
    (hb : b.length = 3 * size.toNat) (hr : r.length = 3 * size.toNat) :
    ∃ m', add_vectors add ⟨a, b, r, []⟩ size = some m' ∧
      ∀ e ∈ m'.trace, e.pos < 3 * size.toNat := by
  obtain ⟨m', e, -, -, -, t, -⟩ := add_vectors_mul4 add ⟨a, b, r, []⟩ size h0 h4
    (by simp only [ha]; omega) (by simp only [hb]; omega) (by simp only [hr]; omega)
  refine ⟨m', e, ?_⟩
  intro ev hev
  rw [t, List.nil_append] at hev
  exact iterations_trace_pos (3 * size.toNat) (size.toNat / 4) 0 (by omega) ev hev

theorem add_vectors_in_bounds_witness :
    ∃ m', add_vectors Int.add ⟨exA4, exB4, zeros12, []⟩ 4 = some m' ∧
      ∀ e ∈ m'.trace, e.pos < 3 * (4 : Int).toNat :=
  add_vectors_in_bounds Int.add exA4 exB4 zeros12 4 (by decide) (by decide) (by decide)
    (by decide) (by decide)

/-- C4 (code defect): for size = 4 the twelve float slots of result are the
target of 1, 2, 3, 3, 2, 1, 0, 0, 0, 0, 0, 0 stores: the slots of elements 2
and 3 are never stored to, and result[0].y, result[0].z, result[1].x and
result[1].y are stored to more than once. -/
theorem add_vectors_store_counts_size4 :
    (add_vectors Int.add ⟨exA4, exB4, zeros12, []⟩ 4).map
        (fun m => (List.range 12).map (storeCount m.trace))
      = some [1, 2, 3, 3, 2, 1, 0, 0, 0, 0, 0, 0] := by
  rw [add_vectors_four]
  decide

/-- C5 (code defect): the operation count of main is sizeof(Vector3) *
ARRAY_SIZE * NUM_RUNS with sizeof(Vector3) = 12 bytes, that is 30,000,000 and
not 3 * 250000 * 10 = 7,500,000; the product is computed without wrapping in
size_t. -/
theorem total_flops_uses_byte_size :
    total_flops = 30000000 ∧ 3 * ARRAY_SIZE * NUM_RUNS = 7500000 ∧
      total_flops ≠ 3 * ARRAY_SIZE * NUM_RUNS ∧
      total_flops = sizeof_Vector3 * ARRAY_SIZE * NUM_RUNS ∧ sizeof_Vector3 = 12 := by
  decide

/-- C6: for every size that is a non-negative multiple of 4 and buffers of
3 * size floats, the kernel returns a result buffer r1, and running it again on
the same a and b with r1 as the result buffer returns r1 again. -/
theorem kernel_idempotent (add : α → α → α) (a b r : List α) (size : Int)
    (h0 : 0 ≤ size) (h4 : size % 4 = 0) (ha : a.length = 3 * size.toNat)
    (hb : b.length = 3 * size.toNat) (hr : r.length = 3 * size.toNat) :
    ∃ r1, kernel add a b r size = some r1 ∧ kernel add a b r1 size = some r1 := by
  obtain ⟨m1, e1, -, -, l1, -, p1⟩ := add_vectors_mul4 add ⟨a, b, r, []⟩ size h0 h4
    (by simp only [ha]; omega) (by simp only [hb]; omega) (by simp only [hr]; omega)
  obtain ⟨m2, e2, -, -, l2, -, p2⟩ := add_vectors_mul4 add ⟨a, b, m1.result, []⟩ size h0 h4
    (by simp only [ha]; omega) (by simp only [hb]; omega) (by simp only [l1, hr]; omega)
  refine ⟨m1.result, by rw [kernel, e1]; rfl, ?_⟩
  rw [kernel, e2]
  simp only [Option.map_some', Option.some.injEq]
  apply List.ext_getElem?
  intro p
  rw [p2 p, p1 p]
  split_ifs <;> rfl

theorem kernel_idempotent_witness :
    ∃ r1, kernel Int.add exA4 exB4 ones12 4 = some r1 ∧ kernel Int.add exA4 exB4 r1 4 = some r1 :=
  kernel_idempotent Int.add exA4 exB4 ones12 4 (by decide) (by decide) (by decide) (by decide)
    (by decide)

/-- C7: for size = 4 and any a, b, result of four elements, the kernel returns
and the first element of result is the component-wise sum of a[0] and b[0]; with
a[0] = (0,0,0) and b[0] = (1,2,3) (integer-valued floats) it is (1,2,3). -/
theorem add_vectors_first_element (add : α → α → α) (a b r : List α)
    (ha : a.length = 12) (hb : b.length = 12) (hr : r.length = 12) :
    ∃ res u v, kernel add a b r 4 = some res ∧ vec3At a 0 = some u ∧ vec3At b 0 = some v ∧
      vec3At res 0 = some (Vector3.add add u v) := by
  obtain ⟨m', e, -, -, l, -, p⟩ := add_vectors_mul4 add ⟨a, b, r, []⟩ 4 (by decide) (by decide)
    (by simp only [ha]; decide) (by simp only [hb]; decide) (by simp only [hr]; decide)
  have h0 := p 0
  have h1 := p 1
  have h2 := p 2
  rw [if_pos (by decide)] at h0 h1 h2
  simp only at h0 h1 h2
  refine ⟨m'.result, ⟨a[0], a[1], a[2]⟩, ⟨b[0], b[1], b[2]⟩, by rw [kernel, e]; rfl, ?_, ?_, ?_⟩
  · simp [vec3At, List.getElem?_eq_getElem, ha]
  · simp [vec3At, List.getElem?_eq_getElem, hb]
  · simp [vec3At, h0, h1, h2, sumAt, List.getElem?_eq_getElem, ha, hb, Vector3.add]

theorem add_vectors_first_element_witness :
    ∃ res, kernel Int.add oneGroupA oneGroupB zeros12 4 = some res ∧
      vec3At oneGroupA 0 = some ⟨0, 0, 0⟩ ∧ vec3At oneGroupB 0 = some ⟨1, 2, 3⟩ ∧
      vec3At res 0 = some ⟨1, 2, 3⟩ := by
  obtain ⟨res, u, v, h, hu, hv, hres⟩ :=
    add_vectors_first_element Int.add oneGroupA oneGroupB zeros12 (by decide) (by decide)
      (by decide)
  have hu0 : vec3At oneGroupA 0 = some ⟨0, 0, 0⟩ := by decide
  have hv0 : vec3At oneGroupB 0 = some ⟨1, 2, 3⟩ := by decide
  rw [hu0, Option.some.injEq] at hu
  rw [hv0, Option.some.injEq] at hv
  subst hu hv
  exact ⟨res, h, hu0, hv0, hres⟩


/-- C9 (counterexample): two equal timer readings satisfy start_time <=
end_time, and there the division by total_time = 0 is taken: the throughput is
not a finite number. -/
theorem mflops_not_finite_at_zero_elapsed :
    (1 : ℚ) ≤ 1 ∧ mflops_per_second 1 1 = none := by
  refine ⟨le_refl _, ?_⟩
  simp [mflops_per_second, guarded_div]

/-- C9 (amended): for timer readings start_time < end_time no division by
zero is taken and the throughput is the finite number
total_flops / (end_time - start_time) / 1e6, which is positive. -/
theorem mflops_finite_of_positive_elapsed (start_time end_time : ℚ)
    (h : start_time < end_time) :
    ∃ q, mflops_per_second start_time end_time = some q ∧
      q = (total_flops : ℚ) / (end_time - start_time) / 1000000 ∧ 0 < q := by
  have hpos : 0 < end_time - start_time := sub_pos.mpr h
  have hflops : (0 : ℚ) < (total_flops : ℚ) := by
    have : total_flops = 30000000 := by decide
    rw [this]
    norm_num
  refine ⟨_, ?_, rfl, by positivity⟩
  simp [mflops_per_second, guarded_div, ne_of_gt hpos]

theorem mflops_finite_of_positive_elapsed_witness :
    ∃ q, mflops_per_second 0 1 = some q ∧
      q = (total_flops : ℚ) / (1 - 0) / 1000000 ∧ 0 < q :=
  mflops_finite_of_positive_elapsed 0 1 (by norm_num)

/-- C10 (code defect): each load reads four consecutive floats, not one
component of four elements.  With a[i] = (3i, 3i+1, 3i+2) and every float of b
equal to 100, the registers of the iteration i = 0 are ax = (0,1,2,3),
ay = (1,2,3,4), az = (2,3,4,5), where a gather of the x, y and z components would
give (0,3,6,9), (1,4,7,10) and (2,5,8,11); and storing rx = (1,1,1,1),
ry = (2,2,2,2), rz = (3,3,3,3) into an all-zero result fills the first six
floats with 1,2,3,3,3,3 instead of scattering them to the x, y and z slots of
the four elements. -/
theorem add_vectors_registers_are_contiguous :
    (add_vectors_loads ⟨exA4, exB4, zeros12, []⟩ 0).map (fun p => p.1)
        = some ⟨⟨0, 1, 2, 3⟩, ⟨1, 2, 3, 4⟩, ⟨2, 3, 4, 5⟩, ⟨100, 100, 100, 100⟩,
            ⟨100, 100, 100, 100⟩, ⟨100, 100, 100, 100⟩⟩ ∧
      gather_spec exA4 0 0 = some ⟨0, 3, 6, 9⟩ ∧
      gather_spec exA4 0 1 = some ⟨1, 4, 7, 10⟩ ∧
      gather_spec exA4 0 2 = some ⟨2, 5, 8, 11⟩ ∧
      (add_vectors_stores ⟨exA4, exB4, zeros12, []⟩ 0 exRegs).map (fun m => m.result)
        = some [1, 2, 3, 3, 3, 3, 0, 0, 0, 0, 0, 0] := by
  decide

/-- C11: the timed loop of main is its body applied NUM_RUNS = 10 times, the
body being one call of the kernel with size = ARRAY_SIZE followed by the update
of the sink; main enters it with the filled buffers and sink = 0.0f.  With
buffers of ARRAY_SIZE elements main returns, its trace after the fill is ten
times the trace of a full kernel call followed by the three reads of result[0],
and the final sink is 0.0f increased ten times by
(a[0].x + b[0].x) + (a[0].y + b[0].y) + (a[0].z + b[0].z). -/
theorem main_runs_kernel_num_runs_times (ops : FloatOps α) (m0 : Mem α)
    (ha : m0.a.length = 3 * ARRAY_SIZE) (hb : m0.b.length = 3 * ARRAY_SIZE)
    (hr : m0.result.length = 3 * ARRAY_SIZE) :
    NUM_RUNS = 10 ∧
      (∀ st, run_loop ops 0 st = Nat.iterate (run_step ops) NUM_RUNS (some st)) ∧
      main ops m0 = (fill_loop ops 0 m0).bind (fun m => run_loop ops 0 (m, ops.tenths 0)) ∧
      (∀ v s, sink_after ops v NUM_RUNS s = ops.add (ops.add (ops.add (ops.add (ops.add
        (ops.add (ops.add (ops.add (ops.add (ops.add s v) v) v) v) v) v) v) v) v) v) ∧
      ∃ mf st u v, fill_loop ops 0 m0 = some mf ∧ main ops m0 = some st ∧
        vec3At mf.a 0 = some u ∧ vec3At mf.b 0 = some v ∧
        st.2 = sink_after ops
          (ops.add (ops.add (ops.add u.x v.x) (ops.add u.y v.y)) (ops.add u.z v.z))
          NUM_RUNS (ops.tenths 0) ∧
        st.1.trace = mf.trace ++ (List.replicate NUM_RUNS run_trace).flatten := by
  refine ⟨rfl, fun st => run_loop_eq_iterate ops NUM_RUNS 0 st (by omega), rfl,
    fun _ _ => rfl, ?_⟩
  obtain ⟨mf, ef, af, bf, rf, -, -, -⟩ := fill_loop_spec ops ARRAY_SIZE 0 m0 (by omega)
    (by omega) (by omega)
  have hpos : 3 ≤ 3 * ARRAY_SIZE := by decide
  obtain ⟨u, hu, ux, uy, uz⟩ := vec3At_some mf.a 0 (by omega)
  obtain ⟨v, hv, vx, vy, vz⟩ := vec3At_some mf.b 0 (by omega)
  obtain ⟨st, es, -, -, -, ks, ts, -⟩ := runs_spec ops (ops.add u.x v.x) (ops.add u.y v.y)
    (ops.add u.z v.z) NUM_RUNS (mf, ops.tenths 0) (by simp only [af]; omega)
    (by simp only [bf]; omega) (by simp only [rf]; omega)
    (sumAt_of_getElem? _ _ _ _ _ _ ux vx) (sumAt_of_getElem? _ _ _ _ _ _ uy vy)
    (sumAt_of_getElem? _ _ _ _ _ _ uz vz)
  refine ⟨mf, st, u, v, ef, ?_, hu, hv, ks, ts⟩
  rw [main, ef, Option.some_bind, run_loop_eq_iterate ops NUM_RUNS 0 _ (by omega)]
  exact es

theorem main_runs_kernel_num_runs_times_witness :
    ∃ mf st u v, fill_loop ratOps 0 freshMem = some mf ∧ main ratOps freshMem = some st ∧
      vec3At mf.a 0 = some u ∧ vec3At mf.b 0 = some v ∧
      st.2 = sink_after ratOps
        (ratOps.add (ratOps.add (ratOps.add u.x v.x) (ratOps.add u.y v.y))
          (ratOps.add u.z v.z))
        NUM_RUNS (ratOps.tenths 0) ∧
      st.1.trace = mf.trace ++ (List.replicate NUM_RUNS run_trace).flatten :=
  (main_runs_kernel_num_runs_times ratOps freshMem (List.length_replicate _ _)
    (List.length_replicate _ _) (List.length_replicate _ _)).2.2.2.2

/-- C12: ARRAY_SIZE is a multiple of 4, and with three buffers of exactly
ARRAY_SIZE elements main returns (no access of the fill loop, of the NUM_RUNS
kernel calls or of the reads of result[0] leaves its buffer): every access of
its trace has a float position below 3 * ARRAY_SIZE, the buffers keep their
length, and every read of a slot of result comes after a write of that slot. -/
theorem main_accesses_in_bounds (ops : FloatOps α) (m0 : Mem α)
    (ha : m0.a.length = 3 * ARRAY_SIZE) (hb : m0.b.length = 3 * ARRAY_SIZE)
    (hr : m0.result.length = 3 * ARRAY_SIZE) (ht : m0.trace = []) :
    ARRAY_SIZE % 4 = 0 ∧
      ∃ st, main ops m0 = some st ∧
        st.1.trace = fill_trace 0 ARRAY_SIZE ++ (List.replicate NUM_RUNS run_trace).flatten ∧
        (∀ e ∈ st.1.trace, e.pos < 3 * ARRAY_SIZE) ∧
        initializedReads [] st.1.trace = true ∧
        st.1.a.length = 3 * ARRAY_SIZE ∧ st.1.b.length = 3 * ARRAY_SIZE ∧
        st.1.result.length = 3 * ARRAY_SIZE := by
  refine ⟨by decide, ?_⟩
  obtain ⟨mf, st, -, es, la, lb, -, tf, -, -, a1, b1, lr, ts, -⟩ := main_spec ops m0 ha hb hr
  have htr : st.1.trace
      = fill_trace 0 ARRAY_SIZE ++ (List.replicate NUM_RUNS run_trace).flatten := by
    rw [ts, tf, ht, List.nil_append]
  refine ⟨st, es, htr, ?_, ?_, by rw [a1, la], by rw [b1, lb], lr⟩
  · intro e he
    rw [htr, List.mem_append] at he
    rcases he with he | he
    · have := (fill_trace_pos ARRAY_SIZE 0 e he).1
      omega
    · rw [List.mem_flatten] at he
      obtain ⟨l, hl, hel⟩ := he
      rw [List.eq_of_mem_replicate hl] at hel
      exact run_trace_pos e hel
  · rw [htr]
    apply initializedReads_append
    · apply initializedReads_of_no_result_load
      intro e he p hp
      have := (fill_trace_pos ARRAY_SIZE 0 e he).2
      rw [hp] at this
      simp [Access.isStore] at this
    · exact initializedReads_runs NUM_RUNS _

theorem main_accesses_in_bounds_witness :
    ARRAY_SIZE % 4 = 0 ∧
      ∃ st, main ratOps freshMem = some st ∧
        st.1.trace = fill_trace 0 ARRAY_SIZE ++ (List.replicate NUM_RUNS run_trace).flatten ∧
        (∀ e ∈ st.1.trace, e.pos < 3 * ARRAY_SIZE) ∧
        initializedReads [] st.1.trace = true ∧
        st.1.a.length = 3 * ARRAY_SIZE ∧ st.1.b.length = 3 * ARRAY_SIZE ∧
        st.1.result.length = 3 * ARRAY_SIZE :=
  main_accesses_in_bounds ratOps freshMem (List.length_replicate _ _)
    (List.length_replicate _ _) (List.length_replicate _ _) rfl

/-- C13: from any initial contents of two buffers of ARRAY_SIZE elements the
fill loop returns, and for every index i below ARRAY_SIZE it has set
a[i] = (i * 0.1f, i * 0.2f, i * 0.3f) and b[i] = (i * 0.4f, i * 0.5f, i * 0.6f),
with i converted to float and * the float multiplication; a and b keep their
length, so no element is left unset, and a second execution from other initial
contents produces the same a and b. -/
theorem fill_initialises_inputs (ops : FloatOps α) (m0 m1 : Mem α)
    (ha0 : m0.a.length = 3 * ARRAY_SIZE) (hb0 : m0.b.length = 3 * ARRAY_SIZE)
    (ha1 : m1.a.length = 3 * ARRAY_SIZE) (hb1 : m1.b.length = 3 * ARRAY_SIZE) :
    ∃ mf mg, fill_loop ops 0 m0 = some mf ∧ fill_loop ops 0 m1 = some mg ∧
      mf.a.length = 3 * ARRAY_SIZE ∧ mf.b.length = 3 * ARRAY_SIZE ∧
      (∀ i : Nat, i < ARRAY_SIZE →
        vec3At mf.a i = some ⟨ops.mul (ops.ofInt i) (ops.tenths 1),
          ops.mul (ops.ofInt i) (ops.tenths 2), ops.mul (ops.ofInt i) (ops.tenths 3)⟩ ∧
        vec3At mf.b i = some ⟨ops.mul (ops.ofInt i) (ops.tenths 4),
          ops.mul (ops.ofInt i) (ops.tenths 5), ops.mul (ops.ofInt i) (ops.tenths 6)⟩) ∧
      mg.a = mf.a ∧ mg.b = mf.b := by
  obtain ⟨mf, ef, af, bf, -, -, pa, pb⟩ := fill_loop_spec ops ARRAY_SIZE 0 m0 (by omega)
    (by omega) (by omega)
  obtain ⟨mg, eg, ag, bg, -, -, qa, qb⟩ := fill_loop_spec ops ARRAY_SIZE 0 m1 (by omega)
    (by omega) (by omega)
  refine ⟨mf, mg, ef, eg, by rw [af, ha0], by rw [bf, hb0], ?_, ?_, ?_⟩
  · intro i hi
    constructor
    · apply vec3At_of_getElem?
      · rw [pa, if_pos (by omega)]
        exact congrArg some (fill_value_at ops 1 i 0 (by omega))
      · rw [pa, if_pos (by omega)]
        exact congrArg some (fill_value_at ops 1 i 1 (by omega))
      · rw [pa, if_pos (by omega)]
        exact congrArg some (fill_value_at ops 1 i 2 (by omega))
    · apply vec3At_of_getElem?
      · rw [pb, if_pos (by omega)]
        exact congrArg some (fill_value_at ops 4 i 0 (by omega))
      · rw [pb, if_pos (by omega)]
        exact congrArg some (fill_value_at ops 4 i 1 (by omega))
      · rw [pb, if_pos (by omega)]
        exact congrArg some (fill_value_at ops 4 i 2 (by omega))
  · apply List.ext_getElem?
    intro p
    rw [qa, pa]
    split_ifs with h
    · rfl
    · rw [List.getElem?_eq_none (by omega), List.getElem?_eq_none (by omega)]
  · apply List.ext_getElem?
    intro p
    rw [qb, pb]
    split_ifs with h
    · rfl
    · rw [List.getElem?_eq_none (by omega), List.getElem?_eq_none (by omega)]

theorem fill_initialises_inputs_witness :
    ∃ mf mg, fill_loop ratOps 0 freshMem = some mf ∧ fill_loop ratOps 0 staleMem = some mg ∧
      mf.a.length = 3 * ARRAY_SIZE ∧ mf.b.length = 3 * ARRAY_SIZE ∧
      (∀ i : Nat, i < ARRAY_SIZE →
        vec3At mf.a i = some ⟨ratOps.mul (ratOps.ofInt i) (ratOps.tenths 1),
          ratOps.mul (ratOps.ofInt i) (ratOps.tenths 2),
          ratOps.mul (ratOps.ofInt i) (ratOps.tenths 3)⟩ ∧
        vec3At mf.b i = some ⟨ratOps.mul (ratOps.ofInt i) (ratOps.tenths 4),
          ratOps.mul (ratOps.ofInt i) (ratOps.tenths 5),
          ratOps.mul (ratOps.ofInt i) (ratOps.tenths 6)⟩) ∧
      mg.a = mf.a ∧ mg.b = mf.b :=
  fill_initialises_inputs ratOps freshMem staleMem (List.length_replicate _ _)
    (List.length_replicate _ _) (List.length_replicate _ _) (List.length_replicate _ _)

/-- C14: for every size that is a positive multiple of 4 and buffers a, b, r of
3 * size floats, the kernel returns a result buffer of the same length in which
every element with index i mod 4 in {0, 1} is the component-wise sum
a[i] + b[i] and every element with index i mod 4 in {2, 3} is r[i], its value
before the call. -/
theorem add_vectors_exact_effect (add : α → α → α) (a b r : List α) (size : Int)
    (h0 : 0 < size) (h4 : size % 4 = 0) (ha : a.length = 3 * size.toNat)
    (hb : b.length = 3 * size.toNat) (hr : r.length = 3 * size.toNat) :
    ∃ res, kernel add a b r size = some res ∧ res.length = r.length ∧
      ∀ i, i < size.toNat →
        (i % 4 < 2 → ∃ u v, vec3At a i = some u ∧ vec3At b i = some v ∧
          vec3At res i = some (Vector3.add add u v)) ∧
        (2 ≤ i % 4 → ∃ w, vec3At r i = some w ∧ vec3At res i = some w) := by
  obtain ⟨m', e, -, -, l, -, p⟩ := add_vectors_mul4 add ⟨a, b, r, []⟩ size (le_of_lt h0) h4
    (by simp only [ha]; omega) (by simp only [hb]; omega) (by simp only [hr]; omega)
  refine ⟨m'.result, by rw [kernel, e]; rfl, l, ?_⟩
  intro i hi
  have p0 := p (3 * i)
  have p1 := p (3 * i + 1)
  have p2 := p (3 * i + 2)
  simp only at p0 p1 p2
  constructor
  · intro hmod
    obtain ⟨u, hu, ux, uy, uz⟩ := vec3At_some a i (by omega)
    obtain ⟨v, hv, vx, vy, vz⟩ := vec3At_some b i (by omega)
    rw [if_pos (by omega), sumAt_of_getElem? add a b _ _ _ ux vx] at p0
    rw [if_pos (by omega), sumAt_of_getElem? add a b _ _ _ uy vy] at p1
    rw [if_pos (by omega), sumAt_of_getElem? add a b _ _ _ uz vz] at p2
    exact ⟨u, v, hu, hv, vec3At_of_getElem? _ _ _ _ _ p0 p1 p2⟩
  · intro hmod
    obtain ⟨w, hw, wx, wy, wz⟩ := vec3At_some r i (by omega)
    rw [if_neg (by omega), wx] at p0
    rw [if_neg (by omega), wy] at p1
    rw [if_neg (by omega), wz] at p2
    exact ⟨w, hw, vec3At_of_getElem? _ _ _ _ _ p0 p1 p2⟩

theorem add_vectors_exact_effect_witness :
    ∃ res, kernel Int.add exA4 exB4 ones12 4 = some res ∧ res.length = ones12.length ∧
      ∀ i, i < (4 : Int).toNat →
        (i % 4 < 2 → ∃ u v, vec3At exA4 i = some u ∧ vec3At exB4 i = some v ∧
          vec3At res i = some (Vector3.add Int.add u v)) ∧
        (2 ≤ i % 4 → ∃ w, vec3At ones12 i = some w ∧ vec3At res i = some w) :=
  add_vectors_exact_effect Int.add exA4 exB4 ones12 4 (by decide) (by decide) (by decide)
    (by decide) (by decide)

end VectorAddition
